import Mathlib

/-!
Shallow embedding of the aegis repository (HPC LLM instance launcher) for
verification of its specification claims.

Sources embedded:
* src/aegis/registry/service_registry.py  (ServiceStatus, ServiceInfo,
  ServiceRegistry.update_health / list_services / get_healthy_services)
* src/aegis/launcher.py   (_wait_for_instances, launch_instances planning loop)
* src/aegis/config.py     (ModelConfig.nodes_per_instance, AegisConfig.nodes_needed)
* src/aegis/scheduler.py  (_read_endpoints_file, wait_for_endpoints)
* src/aegis/cli.py        (_read_endpoints_file, _parse_bench_results, cmd_bench)

Modelling conventions: Python ints are Nat, Python floats produced by
time.time() are modelled as rationals, fallible code returns Option/Except,
the Redis store is an explicit state value threaded through the operations,
and wall-clock reads (time.time) are an explicit parameter of each operation
that consults the clock.
-/

namespace Aegis

/-- Health status enum, from ServiceStatus in service_registry.py. -/
inductive ServiceStatus where
  | healthy
  | unhealthy
  | starting
  | stopping
  | unknown
deriving DecidableEq

/-- The .value attribute of the ServiceStatus enum (its wire string). -/
def ServiceStatus.value : ServiceStatus → String
  | .healthy => "healthy"
  | .unhealthy => "unhealthy"
  | .starting => "starting"
  | .stopping => "stopping"
  | .unknown => "unknown"

/-- Service metadata: a Python dict, modelled as an association list whose
lookup takes the first matching key.  Values are modelled as strings. -/
abbrev Meta := List (String × String)

/-- Association-list lookup (first match wins), the model of reading a key
of a Python dict / Redis hash. -/
def alookup {α : Type} (l : List (String × α)) (k : String) : Option α :=
  match l with
  | [] => none
  | (k', v) :: rest => if k' = k then some v else alookup rest k

/-- Python d[k] = v on a dict: overwrite the value when the key is present,
append the binding otherwise. -/
def dictSet (d : Meta) (k : String) (v : String) : Meta :=
  if (alookup d k).isSome then
    d.map (fun kv => if kv.1 = k then (k, v) else kv)
  else
    d ++ [(k, v)]

/-- Python dict.update: fold the updates left to right into the base dict.
This is the merge performed by ServiceRegistry.update_health. -/
def dictUpdate (d upd : Meta) : Meta :=
  upd.foldl (fun acc kv => dictSet acc kv.1 kv.2) d

/-- ServiceInfo dataclass from service_registry.py.  last_seen is a
time.time() timestamp (a rational in this model). -/
structure ServiceInfo where
  service_id : String
  host : String
  port : Nat
  service_type : String
  status : String
  last_seen : ℚ
  metadata : Meta
deriving DecidableEq

/-- The Redis keyspace used by ServiceRegistry: one hash per service id
(stored decoded, see to_dict/from_dict below for the wire level), the
services:active set and the services:type:{t} sets. -/
structure RegistryState where
  services : List (String × ServiceInfo)
  active : List String
  typeIdx : List (String × List String)
deriving DecidableEq

/-- Membership ids consulted by list_services: the services:type:{t} set
when a type filter is given, otherwise the services:active set. -/
def registryIds (st : RegistryState) (service_type : Option String) : List String :=
  match service_type with
  | some t => (alookup st.typeIdx t).getD []
  | none => st.active

/-- ServiceRegistry.list_services: walk the chosen id set, fetch each
existing service hash, and apply the optional status filter. -/
def list_services (st : RegistryState) (service_type : Option String)
    (status_filter : Option ServiceStatus) : List ServiceInfo :=
  (registryIds st service_type).filterMap (fun id =>
    match alookup st.services id with
    | none => none
    | some s =>
      match status_filter with
      | none => some s
      | some f => if s.status = f.value then some s else none)

/-- ServiceRegistry.get_healthy_services: list the services matching the
type filter and keep those whose stored status is healthy and whose
last_seen is within timeout_seconds of the read-time clock (strict
comparison, computed at read time; the query performs no writes). -/
def get_healthy_services (st : RegistryState) (service_type : Option String)
    (timeout_seconds : ℚ) (now : ℚ) : List ServiceInfo :=
  (list_services st service_type none).filter (fun s =>
    decide (s.status = ServiceStatus.healthy.value ∧ now - s.last_seen < timeout_seconds))

/-- Redis hset of an updated record into the service hash (the key is known
to exist on this path). -/
def svcUpdate (l : List (String × ServiceInfo)) (k : String) (v : ServiceInfo) :
    List (String × ServiceInfo) :=
  l.map (fun kv => if kv.1 = k then (k, v) else kv)

/-- ServiceRegistry.update_health: failure (False) when the service hash
does not exist; otherwise set status, refresh last_seen to the current
time, and, when a non-empty metadata dict is supplied, merge it into the
stored metadata with dict.update.  Returns the success flag and the new
store state. -/
def update_health (st : RegistryState) (service_id : String)
    (status : ServiceStatus) (metadata : Option Meta) (now : ℚ) :
    Bool × RegistryState :=
  match alookup st.services service_id with
  | none => (false, st)
  | some rec =>
    let newMeta :=
      match metadata with
      | some m => if m = [] then rec.metadata else dictUpdate rec.metadata m
      | none => rec.metadata
    let rec' : ServiceInfo :=
      { rec with status := status.value, last_seen := now, metadata := newMeta }
    (true, { st with services := svcUpdate st.services service_id rec' })

/-! Association-list lemmas used by the registry theorems. -/

theorem alookup_append {α : Type} (l₁ l₂ : List (String × α)) (k : String) :
    alookup (l₁ ++ l₂) k =
      match alookup l₁ k with
      | some v => some v
      | none => alookup l₂ k := by
  induction l₁ with
  | nil => rfl
  | cons kv rest ih =>
    simp only [List.cons_append, alookup]
    by_cases h : kv.1 = k
    · simp [h]
    · simp [h, ih]

theorem alookup_eq_none_iff {α : Type} (l : List (String × α)) (k : String) :
    alookup l k = none ↔ k ∉ l.map Prod.fst := by
  induction l with
  | nil => simp [alookup]
  | cons kv rest ih =>
    by_cases h : kv.1 = k
    · simp [alookup, h, eq_comm]
    · have h' : ¬k = kv.1 := fun hh => h hh.symm
      simp [alookup, h, h', ih]

theorem alookup_reverse_of_nodup {α : Type} (l : List (String × α)) (k : String)
    (h : (l.map Prod.fst).Nodup) : alookup l.reverse k = alookup l k := by
  induction l with
  | nil => rfl
  | cons kv rest ih =>
    simp only [List.map_cons, List.nodup_cons] at h
    have hrest := ih h.2
    simp only [List.reverse_cons, alookup_append, hrest, alookup]
    by_cases hk : kv.1 = k
    · subst hk
      have : alookup rest kv.1 = none := (alookup_eq_none_iff rest kv.1).2 h.1
      simp [this, alookup]
    · cases hr : alookup rest k <;> simp [alookup, hk]

theorem alookup_map_set_ne {α : Type} (d : List (String × α)) (k : String) (v : α)
    (k' : String) (h : k ≠ k') :
    alookup (d.map (fun kv => if kv.1 = k then (k, v) else kv)) k' = alookup d k' := by
  induction d with
  | nil => rfl
  | cons kv rest ih =>
    simp only [List.map_cons]
    by_cases hk : kv.1 = k
    · rw [if_pos hk]
      have h2 : ¬kv.1 = k' := by rw [hk]; exact h
      simp only [alookup]
      rw [if_neg h, if_neg h2, ih]
    · rw [if_neg hk]
      simp only [alookup]
      by_cases hk' : kv.1 = k'
      · rw [if_pos hk', if_pos hk']
      · rw [if_neg hk', if_neg hk', ih]

theorem alookup_map_set_self {α : Type} (d : List (String × α)) (k : String) (v : α)
    (h : (alookup d k).isSome) :
    alookup (d.map (fun kv => if kv.1 = k then (k, v) else kv)) k = some v := by
  induction d with
  | nil => simp [alookup] at h
  | cons kv rest ih =>
    simp only [List.map_cons]
    by_cases hk : kv.1 = k
    · rw [if_pos hk]
      simp [alookup]
    · rw [if_neg hk]
      simp only [alookup] at h ⊢
      rw [if_neg hk] at h
      rw [if_neg hk]
      exact ih h

theorem alookup_dictSet (d : Meta) (k : String) (v : String) (k' : String) :
    alookup (dictSet d k v) k' = if k = k' then some v else alookup d k' := by
  unfold dictSet
  by_cases hp : (alookup d k).isSome
  · by_cases hk : k = k'
    · subst hk
      simp [hp, alookup_map_set_self d k v hp]
    · simp [hp, alookup_map_set_ne d k v k' hk, hk]
  · by_cases hk : k = k'
    · subst hk
      have hn : alookup d k = none := by
        cases h : alookup d k
        · rfl
        · simp [h] at hp
      simp [hp, alookup_append, hn, alookup]
    · rw [if_neg hp, alookup_append, if_neg hk]
      cases h : alookup d k'
      · simp [alookup, hk]
      · simp

theorem alookup_dictUpdate (d u : Meta) (k : String) :
    alookup (dictUpdate d u) k =
      match alookup u.reverse k with
      | some v => some v
      | none => alookup d k := by
  induction u generalizing d with
  | nil => rfl
  | cons kv rest ih =>
    have step : dictUpdate d (kv :: rest) = dictUpdate (dictSet d kv.1 kv.2) rest := rfl
    rw [step, ih]
    simp only [List.reverse_cons, alookup_append]
    cases hr : alookup rest.reverse k
    · simp only [alookup_dictSet, alookup]
      by_cases hk : kv.1 = k
      · simp [hk]
      · have hk' : ¬k = kv.1 := fun hh => hk hh.symm
        simp [hk, hk']
    · simp

theorem alookup_svcUpdate_ne (l : List (String × ServiceInfo)) (k : String)
    (v : ServiceInfo) (k' : String) (h : k' ≠ k) :
    alookup (svcUpdate l k v) k' = alookup l k' :=
  alookup_map_set_ne l k v k' (Ne.symm h)

theorem alookup_svcUpdate_self (l : List (String × ServiceInfo)) (k : String)
    (v : ServiceInfo) (h : (alookup l k).isSome) :
    alookup (svcUpdate l k v) k = some v :=
  alookup_map_set_self l k v h

/-- list_services with no status filter is a filterMap of the service
hashes over the chosen id set. -/
theorem list_services_none_eq (st : RegistryState) (tf : Option String) :
    list_services st tf none =
      (registryIds st tf).filterMap (fun id => alookup st.services id) := by
  unfold list_services
  congr 1
  funext id
  cases alookup st.services id <;> rfl

/-- C4: for every registry state, type filter and ttl, get_healthy_services
returns exactly the records reachable through the consulted id set whose
stored status string is healthy and whose last_seen lies strictly within
ttl seconds of the read-time clock.  The query is a pure read of the state
(the source performs only smembers/hgetall, no writes), so in particular a
stale record is excluded without its stored status being changed. -/
theorem get_healthy_services_ttl (st : RegistryState) (tf : Option String)
    (ttl now : ℚ) (s : ServiceInfo) :
    s ∈ get_healthy_services st tf ttl now ↔
      ((∃ id, id ∈ registryIds st tf ∧ alookup st.services id = some s) ∧
        s.status = ServiceStatus.healthy.value ∧ now - s.last_seen < ttl) := by
  unfold get_healthy_services
  rw [List.mem_filter, list_services_none_eq, List.mem_filterMap]
  simp [decide_eq_true_eq, and_assoc]

/-- C7: update_health on an unknown service id returns failure and leaves
the whole registry state unchanged; on a registered id it returns success,
sets the record status to the given status string, refreshes last_seen to
the current time, merges (dict.update, not replaces) any non-empty supplied
metadata into the stored metadata, and leaves the other record fields, all
other records, and both index sets unchanged. -/
theorem update_health_spec (st : RegistryState) (id : String)
    (status : ServiceStatus) (md : Option Meta) (now : ℚ) :
    (alookup st.services id = none → update_health st id status md now = (false, st)) ∧
    (∀ svc, alookup st.services id = some svc →
      (update_health st id status md now).1 = true ∧
      (update_health st id status md now).2.active = st.active ∧
      (update_health st id status md now).2.typeIdx = st.typeIdx ∧
      (∀ id', id' ≠ id →
        alookup (update_health st id status md now).2.services id' =
          alookup st.services id') ∧
      alookup (update_health st id status md now).2.services id =
        some { svc with
               status := status.value, last_seen := now,
               metadata :=
                 match md with
                 | some m => if m = [] then svc.metadata else dictUpdate svc.metadata m
                 | none => svc.metadata } ∧
      (∀ m, md = some m → (m.map Prod.fst).Nodup →
        (∀ k, alookup m k = none →
          alookup (dictUpdate svc.metadata m) k = alookup svc.metadata k) ∧
        (∀ k v, alookup m k = some v →
          alookup (dictUpdate svc.metadata m) k = some v))) := by
  constructor
  · intro h
    simp [update_health, h]
  · intro svc h
    refine ⟨by simp [update_health, h], by simp [update_health, h],
      by simp [update_health, h], ?_, ?_, ?_⟩
    · intro id' hne
      simp only [update_health, h]
      exact alookup_svcUpdate_ne _ _ _ _ hne
    · simp only [update_health, h]
      exact alookup_svcUpdate_self _ _ _ (by rw [h]; rfl)
    · intro m hm hnd
      constructor
      · intro k hk
        rw [alookup_dictUpdate, alookup_reverse_of_nodup m k hnd, hk]
      · intro k v hkv
        rw [alookup_dictUpdate, alookup_reverse_of_nodup m k hnd, hkv]

/-- A concrete registry with two vllm records, used by witnesses. -/
def witnessState : RegistryState :=
  { services :=
      [("vllm-n1-8000",
         { service_id := "vllm-n1-8000", host := "n1", port := 8000,
           service_type := "vllm", status := "starting", last_seen := 100,
           metadata := [("model", "m1"), ("k", "old")] }),
       ("vllm-n2-8001",
         { service_id := "vllm-n2-8001", host := "n2", port := 8001,
           service_type := "vllm", status := "healthy", last_seen := 100,
           metadata := [] })],
    active := ["vllm-n1-8000", "vllm-n2-8001"],
    typeIdx := [("vllm", ["vllm-n1-8000", "vllm-n2-8001"])] }

/-- Witness for C7: on the concrete registry, updating an unknown id is a
failing no-op, and updating a known id succeeds, overriding the duplicated
metadata key while keeping the untouched one. -/
theorem update_health_spec_witness :
    update_health witnessState "ghost" ServiceStatus.healthy none 200 =
      (false, witnessState) ∧
    (update_health witnessState "vllm-n1-8000" ServiceStatus.healthy
        (some [("k", "new"), ("g", "4")]) 200).1 = true ∧
    alookup (update_health witnessState "vllm-n1-8000" ServiceStatus.healthy
        (some [("k", "new"), ("g", "4")]) 200).2.services "vllm-n1-8000" =
      some
        { service_id := "vllm-n1-8000", host := "n1", port := 8000,
          service_type := "vllm", status := "healthy", last_seen := 200,
          metadata := [("model", "m1"), ("k", "new"), ("g", "4")] } := by
  have h1 :=
    (update_health_spec witnessState "ghost" ServiceStatus.healthy none 200).1
      (by decide)
  have h2 :=
    (update_health_spec witnessState "vllm-n1-8000" ServiceStatus.healthy
        (some [("k", "new"), ("g", "4")]) 200).2
      { service_id := "vllm-n1-8000", host := "n1", port := 8000,
        service_type := "vllm", status := "starting", last_seen := 100,
        metadata := [("model", "m1"), ("k", "old")] }
      (by decide)
  refine ⟨h1, h2.1, ?_⟩
  rw [h2.2.2.2.2.1]
  decide

/-! Wire-format layer of ServiceInfo.to_dict / ServiceInfo.from_dict.

to_dict stores every field as a string in the Redis hash: the port via
str(int) and int(str) (modelled concretely below as a decimal codec with a
proved round trip), the last_seen float via str(float) and float(str)
(Python guarantees float(str(x)) == x by the shortest-repr property of
IEEE doubles; that external conversion pair is a parameter of the model
together with its round-trip assumption), and the metadata dict via
json.dumps and json.loads (the json library is external; the codec pair is
a parameter, and the round trip is exactly the hypothesis of claim C10). -/

/-- Little-endian decimal digits of a natural number, empty for 0. -/
def natDigits : Nat → List Nat
  | 0 => []
  | n+1 => ((n + 1) % 10) :: natDigits ((n + 1) / 10)
decreasing_by exact Nat.div_lt_self (Nat.succ_pos n) (by omega)

/-- Decimal digit to its character (codepoint 48 upward). -/
def digitChar (d : Nat) : Char :=
  Char.ofNat (48 + d)

/-- Character to decimal digit, none on a non-digit. -/
def charDigit (c : Char) : Option Nat :=
  if 48 ≤ c.toNat ∧ c.toNat ≤ 57 then some (c.toNat - 48) else none

/-- Python str(n) for a non-negative int: decimal rendering. -/
def natStr (n : Nat) : String :=
  if n = 0 then "0" else String.mk ((natDigits n).reverse.map digitChar)

/-- Accumulating decimal parse of a character list. -/
def parseNatAux : Nat → List Char → Option Nat
  | acc, [] => some acc
  | acc, c :: rest =>
    match charDigit c with
    | none => none
    | some d => parseNatAux (acc * 10 + d) rest

/-- Python int(s) for a decimal string: fails on empty or non-digit input. -/
def parseNat (s : String) : Option Nat :=
  if s.data.isEmpty then none else parseNatAux 0 s.data

theorem natDigits_lt : ∀ n, ∀ d ∈ natDigits n, d < 10 := by
  intro n
  induction n using Nat.strong_induction_on with
  | _ n ih =>
    match n with
    | 0 => simp [natDigits]
    | m+1 =>
      intro d hd
      rw [natDigits] at hd
      rcases List.mem_cons.mp hd with h | h
      · subst h
        exact Nat.mod_lt _ (by omega)
      · exact ih ((m + 1) / 10) (Nat.div_lt_self (by omega) (by omega)) d h

theorem charDigit_digitChar : ∀ d, d < 10 → charDigit (digitChar d) = some d := by
  decide

theorem parseNatAux_digits :
    ∀ (l : List Nat), (∀ d ∈ l, d < 10) → ∀ acc,
      parseNatAux acc (l.map digitChar) =
        some (l.foldl (fun a d => a * 10 + d) acc) := by
  intro l
  induction l with
  | nil => intro _ acc; rfl
  | cons d rest ih =>
    intro h acc
    have hd : d < 10 := h d (List.mem_cons_self d rest)
    simp only [List.map_cons, parseNatAux, charDigit_digitChar d hd]
    exact ih (fun x hx => h x (List.mem_cons_of_mem d hx)) (acc * 10 + d)

theorem natDigits_foldr :
    ∀ n, (natDigits n).foldr (fun d a => a * 10 + d) 0 = n := by
  intro n
  induction n using Nat.strong_induction_on with
  | _ n ih =>
    match n with
    | 0 => simp [natDigits]
    | m+1 =>
      rw [natDigits, List.foldr_cons, ih ((m + 1) / 10) (Nat.div_lt_self (by omega) (by omega))]
      omega

theorem natDigits_ne_nil (n : Nat) (h : n ≠ 0) : natDigits n ≠ [] := by
  match n with
  | 0 => exact absurd rfl h
  | m+1 =>
    rw [natDigits]
    exact List.cons_ne_nil _ _

/-- The port wire codec round trip: int(str(n)) recovers n. -/
theorem parseNat_natStr (n : Nat) : parseNat (natStr n) = some n := by
  by_cases h0 : n = 0
  · subst h0
    rfl
  · unfold natStr parseNat
    rw [if_neg h0]
    have hne : ((natDigits n).reverse.map digitChar) ≠ [] := by
      intro h
      exact natDigits_ne_nil n h0 (by simpa using h)
    have hdata : (String.mk ((natDigits n).reverse.map digitChar)).data =
        (natDigits n).reverse.map digitChar := rfl
    rw [hdata, if_neg (by simpa [List.isEmpty_iff] using hne)]
    rw [parseNatAux_digits (natDigits n).reverse
      (fun d hd => natDigits_lt n d (List.mem_reverse.mp hd)) 0]
    rw [List.foldl_reverse, natDigits_foldr n]

/-- The Redis hash produced by ServiceInfo.to_dict: all seven fields as
strings. -/
structure WireDict where
  service_id : String
  host : String
  port : String
  service_type : String
  status : String
  last_seen : String
  metadata : String
deriving DecidableEq

/-- ServiceInfo.to_dict: asdict plus string conversion of metadata
(json.dumps), last_seen (str) and port (str). -/
def to_dict (jdumps : Meta → String) (fstr : ℚ → String)
    (info : ServiceInfo) : WireDict :=
  { service_id := info.service_id, host := info.host,
    port := natStr info.port, service_type := info.service_type,
    status := info.status, last_seen := fstr info.last_seen,
    metadata := jdumps info.metadata }

/-- ServiceInfo.from_dict: json.loads the metadata string, float() the
last_seen string, int() the port string, then rebuild the dataclass; a
parse failure (Python ValueError) is none. -/
def from_dict (jloads : String → Option Meta) (fparse : String → Option ℚ)
    (d : WireDict) : Option ServiceInfo :=
  match jloads d.metadata with
  | none => none
  | some md =>
    match fparse d.last_seen with
    | none => none
    | some ls =>
      match parseNat d.port with
      | none => none
      | some p =>
        some { service_id := d.service_id, host := d.host, port := p,
               service_type := d.service_type, status := d.status,
               last_seen := ls, metadata := md }

/-- C10: for every ServiceInfo whose metadata round-trips through the JSON
codec (the hypothesis stated by the claim itself) and whose last_seen round-trips through
the float codec (guaranteed for every Python float by the shortest-repr
property), from_dict inverts to_dict, preserving all seven fields; the
concrete decimal port codec round trip is proved, not assumed. -/
theorem from_dict_to_dict (jdumps : Meta → String) (jloads : String → Option Meta)
    (fstr : ℚ → String) (fparse : String → Option ℚ) (info : ServiceInfo)
    (hm : jloads (jdumps info.metadata) = some info.metadata)
    (hf : fparse (fstr info.last_seen) = some info.last_seen) :
    from_dict jloads fparse (to_dict jdumps fstr info) = some info := by
  simp [from_dict, to_dict, hm, hf, parseNat_natStr]

/-- Witness for C10 at a concrete record and concrete codecs satisfying
both round-trip hypotheses. -/
theorem from_dict_to_dict_witness :
    from_dict (fun s => if s = "[]" then some ([] : Meta) else none)
      (fun s => if s = "1700.0" then some ((1700 : ℚ)) else none)
      (to_dict (fun _ => "[]") (fun _ => "1700.0")
        { service_id := "vllm-n1-8000", host := "n1", port := 8000,
          service_type := "vllm", status := "healthy",
          last_seen := (1700 : ℚ), metadata := [] }) =
      some { service_id := "vllm-n1-8000", host := "n1", port := 8000,
             service_type := "vllm", status := "healthy",
             last_seen := (1700 : ℚ), metadata := [] } :=
  from_dict_to_dict _ _ _ _ _ (by decide) (by decide)

/-! Placement planner: ModelConfig.nodes_per_instance and
AegisConfig.nodes_needed from config.py, and the planning prefix of
launch_instances from launcher.py (the node-count check followed by the
nested model/instance loop consuming contiguous node slices at a running
offset with a running global instance index). -/

/-- GPUS_PER_NODE = 12 (Aurora), from config.py. -/
def GPUS_PER_NODE : Nat := 12

/-- Per-model settings of a single model within a job (ModelConfig). -/
structure ModelConfig where
  model : String
  instances : Nat
  tensor_parallel_size : Nat
  model_source : Option String
  download_weights : Bool
  extra_vllm_args : List String
deriving DecidableEq

/-- ModelConfig.nodes_per_instance: ceil(tensor_parallel_size / 12). -/
def nodes_per_instance (m : ModelConfig) : Nat :=
  (m.tensor_parallel_size + GPUS_PER_NODE - 1) / GPUS_PER_NODE

/-- AegisConfig.nodes_needed: sum of instances * nodes_per_instance. -/
def nodes_needed (models : List ModelConfig) : Nat :=
  (models.map (fun m => m.instances * nodes_per_instance m)).sum

/-- One planned instance: its model, node slice, head node
(instance_nodes[0]) and port. -/
structure Instance where
  modelName : String
  nodes : List String
  head : String
  port : Nat
deriving DecidableEq

/-- Inner loop of launch_instances over one model: each iteration slices
nodes_per_instance nodes at the running offset, takes the first node of
the slice as the endpoint host (an empty slice is the IndexError of
instance_nodes[0], modelled as none), assigns port port_start + idx, and
advances idx by 1 and the offset by the slice width. -/
def buildModel (nodes : List String) (port_start : Nat) (m : ModelConfig) :
    Nat → Nat → Nat → Option (List Instance)
  | 0, _, _ => some []
  | c + 1, idx, off =>
    match (nodes.drop off).take (nodes_per_instance m) with
    | [] => none
    | h :: t =>
      match buildModel nodes port_start m c (idx + 1) (off + nodes_per_instance m) with
      | none => none
      | some rest =>
        some ({ modelName := m.model, nodes := h :: t, head := h,
                port := port_start + idx } :: rest)

/-- Outer loop of launch_instances over the declared models, threading the
global instance index and node offset in declaration order. -/
def buildModels (nodes : List String) (port_start : Nat) :
    List ModelConfig → Nat → Nat → Option (List Instance)
  | [], _, _ => some []
  | m :: ms, idx, off =>
    match buildModel nodes port_start m m.instances idx off with
    | none => none
    | some l1 =>
      match buildModels nodes port_start ms (idx + m.instances)
          (off + m.instances * nodes_per_instance m) with
      | none => none
      | some l2 => some (l1 ++ l2)

inductive PlanError where
  | insufficientNodes (needed avail : Nat)
  | indexError
deriving DecidableEq

/-- Planning prefix of launch_instances: fail with the shortfall before
anything else when fewer nodes are allocated than needed, otherwise run
the placement loop.  In the source the check precedes the Redis start and
every subprocess spawn, so an insufficient-nodes failure creates no state. -/
def launch_instances_plan (models : List ModelConfig) (port_start : Nat)
    (nodes : List String) : Except PlanError (List Instance) :=
  if nodes.length < nodes_needed models then
    .error (.insufficientNodes (nodes_needed models) nodes.length)
  else
    match buildModels nodes port_start models 0 0 with
    | none => .error .indexError
    | some l => .ok l

/-- The requests flattened to one entry per instance, in declaration
order (the walk order of the placement algorithm in the spec). -/
def flatRequests (models : List ModelConfig) : List ModelConfig :=
  models.flatMap (fun m => List.replicate m.instances m)

/-- Total number of instances over all models. -/
def totalInstances (models : List ModelConfig) : Nat :=
  (models.map (fun m => m.instances)).sum

theorem buildModel_spec (nodes : List String) (p : Nat) (m : ModelConfig)
    (hnpi : 1 ≤ nodes_per_instance m) :
    ∀ c idx off, off + c * nodes_per_instance m ≤ nodes.length →
      ∃ l, buildModel nodes p m c idx off = some l ∧
        l.map Instance.port = (List.range c).map (fun j => p + (idx + j)) ∧
        l.map Instance.modelName = List.replicate c m.model ∧
        l.map (fun i => i.nodes.length) = List.replicate c (nodes_per_instance m) ∧
        (l.map Instance.nodes).flatten =
          (nodes.drop off).take (c * nodes_per_instance m) ∧
        ∀ i ∈ l, i.nodes.head? = some i.head := by
  intro c
  induction c with
  | zero =>
    intro idx off _
    exact ⟨[], rfl, rfl, rfl, rfl, by simp, by simp⟩
  | succ c ih =>
    intro idx off hfit
    have hoff : off + nodes_per_instance m ≤ nodes.length := by
      have : nodes_per_instance m ≤ (c + 1) * nodes_per_instance m :=
        Nat.le_mul_of_pos_left _ (by omega)
      omega
    have hslice : ((nodes.drop off).take (nodes_per_instance m)).length =
        nodes_per_instance m := by
      rw [List.length_take, List.length_drop]
      omega
    obtain ⟨rest, hrest, hports, hnames, hlens, hflat, hheads⟩ :=
      ih (idx + 1) (off + nodes_per_instance m) (by
        have : (c + 1) * nodes_per_instance m =
            nodes_per_instance m + c * nodes_per_instance m := by ring
        omega)
    match hs : (nodes.drop off).take (nodes_per_instance m) with
    | [] =>
      rw [hs] at hslice
      simp at hslice
      omega
    | h :: t =>
      refine ⟨{ modelName := m.model, nodes := h :: t, head := h,
                port := p + idx } :: rest, ?_, ?_, ?_, ?_, ?_, ?_⟩
      · rw [buildModel, hs, hrest]
      · simp only [List.map_cons, hports, List.range_succ_eq_map, List.map_map]
        refine congrArg₂ List.cons (by omega) (List.map_congr_left ?_)
        intro j _
        simp [Function.comp]
        omega
      · simp [hnames, List.replicate_succ]
      · simp only [List.map_cons, hlens, List.replicate_succ]
        congr 1
        rw [← hs, hslice]
      · simp only [List.map_cons, List.flatten_cons, hflat]
        have h1 : (c + 1) * nodes_per_instance m =
            nodes_per_instance m + c * nodes_per_instance m := by ring
        rw [h1, List.take_add, ← hs, List.drop_drop]
      · intro i hi
        rcases List.mem_cons.mp hi with h | h
        · subst h; rfl
        · exact hheads i h

theorem buildModels_spec (nodes : List String) (p : Nat) :
    ∀ (models : List ModelConfig) (idx off : Nat),
      (∀ m ∈ models, 1 ≤ nodes_per_instance m) →
      off + nodes_needed models ≤ nodes.length →
      ∃ l, buildModels nodes p models idx off = some l ∧
        l.map Instance.port =
          (List.range (totalInstances models)).map (fun j => p + (idx + j)) ∧
        l.map Instance.modelName = (flatRequests models).map ModelConfig.model ∧
        l.map (fun i => i.nodes.length) =
          (flatRequests models).map nodes_per_instance ∧
        (l.map Instance.nodes).flatten =
          (nodes.drop off).take (nodes_needed models) ∧
        ∀ i ∈ l, i.nodes.head? = some i.head := by
  intro models
  induction models with
  | nil =>
    intro idx off _ _
    exact ⟨[], rfl, by simp [totalInstances, flatRequests], by
      simp [flatRequests], by simp [flatRequests], by
      simp [nodes_needed], by simp⟩
  | cons m ms ih =>
    intro idx off hval hfit
    have hneed : nodes_needed (m :: ms) =
        m.instances * nodes_per_instance m + nodes_needed ms := by
      simp [nodes_needed]
    have hm := hval m (List.mem_cons_self m ms)
    obtain ⟨l1, h1, h1p, h1n, h1l, h1f, h1h⟩ :=
      buildModel_spec nodes p m hm m.instances idx off (by omega)
    obtain ⟨l2, h2, h2p, h2n, h2l, h2f, h2h⟩ :=
      ih (idx + m.instances) (off + m.instances * nodes_per_instance m)
        (fun x hx => hval x (List.mem_cons_of_mem m hx)) (by omega)
    refine ⟨l1 ++ l2, ?_, ?_, ?_, ?_, ?_, ?_⟩
    · rw [buildModels, h1, h2]
    · have htot : totalInstances (m :: ms) = m.instances + totalInstances ms := by
        simp [totalInstances]
      rw [List.map_append, h1p, h2p, htot, List.range_add, List.map_append,
        List.map_map]
      refine congrArg₂ (· ++ ·) rfl (List.map_congr_left ?_)
      intro j _
      simp [Function.comp]
      omega
    · have hflatr : flatRequests (m :: ms) =
          List.replicate m.instances m ++ flatRequests ms := by
        simp [flatRequests]
      rw [List.map_append, h1n, h2n, hflatr, List.map_append, List.map_replicate]
    · have hflatr : flatRequests (m :: ms) =
          List.replicate m.instances m ++ flatRequests ms := by
        simp [flatRequests]
      rw [List.map_append, h1l, h2l, hflatr, List.map_append, List.map_replicate]
    · rw [List.map_append, List.flatten_append, h1f, h2f, hneed, List.take_add,
        List.drop_drop]
    · intro i hi
      rcases List.mem_append.mp hi with h | h
      · exact h1h i h
      · exact h2h i h

/-- Config validity used by the planner theorems: every declared model has
a positive tensor_parallel_size, hence spans at least one node. -/
theorem npi_pos (m : ModelConfig) (h : 1 ≤ m.tensor_parallel_size) :
    1 ≤ nodes_per_instance m := by
  unfold nodes_per_instance GPUS_PER_NODE
  omega

/-- C2: for configurations whose models all have a positive parallelism
degree, planning succeeds iff the total node demand fits the allocation,
and on failure it returns the insufficient-nodes error computed before any
instance is built (the error carries only the shortfall; no partial plan
exists). -/
theorem launch_plan_allocation (models : List ModelConfig) (p : Nat)
    (nodes : List String)
    (hval : ∀ m ∈ models, 1 ≤ m.tensor_parallel_size) :
    ((∃ l, launch_instances_plan models p nodes = .ok l) ↔
      nodes_needed models ≤ nodes.length) ∧
    (nodes.length < nodes_needed models →
      launch_instances_plan models p nodes =
        .error (.insufficientNodes (nodes_needed models) nodes.length)) := by
  constructor
  · constructor
    · rintro ⟨l, hl⟩
      by_cases h : nodes.length < nodes_needed models
      · rw [launch_instances_plan, if_pos h] at hl
        exact absurd hl (by simp)
      · omega
    · intro h
      obtain ⟨l, hbm, _⟩ :=
        buildModels_spec nodes p models 0 0
          (fun m hm => npi_pos m (hval m hm)) (by omega)
      refine ⟨l, ?_⟩
      rw [launch_instances_plan, if_neg (by omega), hbm]
  · intro h
    rw [launch_instances_plan, if_pos h]

/-- Scenario config: model A needs 2 instances of 1 node (tp 12), model B
needs 1 instance of 2 nodes (tp 24). -/
def scenarioModels : List ModelConfig :=
  [{ model := "modelA", instances := 2, tensor_parallel_size := 12,
     model_source := none, download_weights := false, extra_vllm_args := [] },
   { model := "modelB", instances := 1, tensor_parallel_size := 24,
     model_source := none, download_weights := false, extra_vllm_args := [] }]

/-- Witness for C2: the scenario needs 4 nodes; on 3 allocated nodes the
plan fails with the shortfall error, on 4 it succeeds. -/
theorem launch_plan_allocation_witness :
    launch_instances_plan scenarioModels 8000 ["n0", "n1", "n2"] =
      .error (.insufficientNodes 4 3) ∧
    (∃ l, launch_instances_plan scenarioModels 8000 ["n0", "n1", "n2", "n3"] = .ok l) := by
  constructor
  · exact (launch_plan_allocation scenarioModels 8000 ["n0", "n1", "n2"]
      (by decide)).2 (by decide)
  · exact (launch_plan_allocation scenarioModels 8000 ["n0", "n1", "n2", "n3"]
      (by decide)).1.mpr (by decide)

/-- C3: with a valid configuration and enough nodes, the plan walks models
in declaration order and instances in order within each model (its model
column equals the flattened request list), assigns port port_start + k to
the k-th instance globally, gives each instance a slice of exactly
nodes_per_instance nodes whose first node is the stored head, and the
concatenation of all slices in plan order is an initial segment of the
allocated node list (contiguous, non-overlapping, in order). -/
theorem launch_plan_layout (models : List ModelConfig) (p : Nat)
    (nodes : List String)
    (hval : ∀ m ∈ models, 1 ≤ m.tensor_parallel_size)
    (hfit : nodes_needed models ≤ nodes.length) :
    ∃ plan, launch_instances_plan models p nodes = .ok plan ∧
      plan.map Instance.port =
        (List.range (totalInstances models)).map (fun k => p + k) ∧
      plan.map Instance.modelName = (flatRequests models).map ModelConfig.model ∧
      plan.map (fun i => i.nodes.length) =
        (flatRequests models).map nodes_per_instance ∧
      (plan.map Instance.nodes).flatten = nodes.take (nodes_needed models) ∧
      ∀ i ∈ plan, i.nodes.head? = some i.head := by
  obtain ⟨l, hbm, hp, hn, hl, hf, hh⟩ :=
    buildModels_spec nodes p models 0 0
      (fun m hm => npi_pos m (hval m hm)) (by omega)
  refine ⟨l, ?_, ?_, hn, hl, by simpa using hf, hh⟩
  · rw [launch_instances_plan, if_neg (by omega), hbm]
  · simpa using hp

/-- Witness for C3: the end-to-end scenario of the spec — 2 models
(2 instances of 1 node, then 1 instance of 2 nodes) on 4 allocated nodes
with port base 8000 produce node slices [n0], [n1], [n2, n3], heads n0,
n1, n2 and ports 8000, 8001, 8002. -/
theorem launch_plan_layout_witness :
    launch_instances_plan scenarioModels 8000 ["n0", "n1", "n2", "n3"] =
      .ok [{ modelName := "modelA", nodes := ["n0"], head := "n0", port := 8000 },
           { modelName := "modelA", nodes := ["n1"], head := "n1", port := 8001 },
           { modelName := "modelB", nodes := ["n2", "n3"], head := "n2", port := 8002 }] ∧
    (∃ plan,
      launch_instances_plan scenarioModels 8000 ["n0", "n1", "n2", "n3"] = .ok plan ∧
      plan.map Instance.port = [8000, 8001, 8002]) := by
  constructor
  · rfl
  · obtain ⟨plan, h1, h2, _⟩ :=
      launch_plan_layout scenarioModels 8000 ["n0", "n1", "n2", "n3"]
        (by decide) (by decide)
    exact ⟨plan, h1, by rw [h2]; decide⟩

/-! Readiness barrier: _wait_for_instances from launcher.py.  The HTTP
health probes are abstracted as a boolean oracle health cycle endpoint
(true iff that endpoint answers 200 in that polling cycle); the loop body
runs once per cycle until the deadline, so the timeout is the number of
whole polling cycles that fit before it, and sys.exit(1) is the error
branch of the result carrying the printed not-ready list. -/

/-- One polling cycle: probe every endpoint not yet in the ready set, in
order, and append responders to the ready set. -/
def pollCycle (health : Nat → String × Nat → Bool)
    (endpoints : List (String × Nat)) (cycle : Nat)
    (ready : List (String × Nat)) : List (String × Nat) :=
  endpoints.foldl
    (fun r e => if e ∈ r then r else if health cycle e then r ++ [e] else r) ready

/-- The while loop of _wait_for_instances: each iteration polls one cycle,
returns normally when the ready count reaches the endpoint count, and on
fuel exhaustion (deadline) exits fatally with the list of endpoints not in
the ready set. -/
def waitLoop (health : Nat → String × Nat → Bool)
    (endpoints : List (String × Nat)) :
    Nat → Nat → List (String × Nat) → Except (List (String × Nat)) Unit
  | 0, _, ready => .error (endpoints.filter (fun e => decide (e ∉ ready)))
  | fuel + 1, cycle, ready =>
    let r := pollCycle health endpoints cycle ready
    if r.length = endpoints.length then .ok ()
    else waitLoop health endpoints fuel (cycle + 1) r

/-- Model of _wait_for_instances: start with an empty ready set at cycle 1 with
maxCycles polling cycles inside the timeout. -/
def wait_for_instances (health : Nat → String × Nat → Bool)
    (endpoints : List (String × Nat)) (maxCycles : Nat) :
    Except (List (String × Nat)) Unit :=
  waitLoop health endpoints maxCycles 1 []

theorem pollCycle_mem (health : Nat → String × Nat → Bool) (c : Nat) :
    ∀ (eps ready : List (String × Nat)) (e : String × Nat),
      e ∈ pollCycle health eps c ready ↔
        e ∈ ready ∨ (e ∈ eps ∧ health c e = true) := by
  intro eps
  induction eps with
  | nil => simp [pollCycle]
  | cons a rest ih =>
    intro ready e
    have hstep : pollCycle health (a :: rest) c ready =
        pollCycle health rest c
          (if a ∈ ready then ready else if health c a then ready ++ [a] else ready) := by
      simp [pollCycle]
    rw [hstep, ih]
    have hra : ∀ x : String × Nat, x ∈ ready ++ [a] ↔ x ∈ ready ∨ x = a := by
      intro x
      rw [List.mem_append, List.mem_singleton]
    by_cases ha1 : a ∈ ready
    · rw [if_pos ha1]
      simp only [List.mem_cons]
      constructor
      · rintro (h | ⟨h1, h2⟩)
        · exact Or.inl h
        · exact Or.inr ⟨Or.inr h1, h2⟩
      · rintro (h | ⟨h1 | h1, h2⟩)
        · exact Or.inl h
        · exact Or.inl (by rw [h1]; exact ha1)
        · exact Or.inr ⟨h1, h2⟩
    · rw [if_neg ha1]
      by_cases ha2 : health c a = true
      · rw [if_pos ha2]
        simp only [List.mem_cons]
        constructor
        · rintro (h | ⟨h1, h2⟩)
          · rcases (hra e).1 h with h' | h'
            · exact Or.inl h'
            · exact Or.inr ⟨Or.inl h', by rw [h']; exact ha2⟩
          · exact Or.inr ⟨Or.inr h1, h2⟩
        · rintro (h | ⟨h1 | h1, h2⟩)
          · exact Or.inl ((hra e).2 (Or.inl h))
          · exact Or.inl ((hra e).2 (Or.inr h1))
          · exact Or.inr ⟨h1, h2⟩
      · rw [if_neg ha2]
        simp only [List.mem_cons]
        constructor
        · rintro (h | ⟨h1, h2⟩)
          · exact Or.inl h
          · exact Or.inr ⟨Or.inr h1, h2⟩
        · rintro (h | ⟨h1 | h1, h2⟩)
          · exact Or.inl h
          · exact absurd (by rw [← h1]; exact h2) ha2
          · exact Or.inr ⟨h1, h2⟩

theorem pollCycle_nodup (health : Nat → String × Nat → Bool) (c : Nat) :
    ∀ (eps ready : List (String × Nat)), ready.Nodup →
      (pollCycle health eps c ready).Nodup := by
  intro eps
  induction eps with
  | nil => intro ready h; simpa [pollCycle] using h
  | cons a rest ih =>
    intro ready h
    have hstep : pollCycle health (a :: rest) c ready =
        pollCycle health rest c
          (if a ∈ ready then ready else if health c a then ready ++ [a] else ready) := by
      simp [pollCycle]
    rw [hstep]
    apply ih
    by_cases ha1 : a ∈ ready
    · simpa [ha1] using h
    · by_cases ha2 : health c a = true
      · rw [if_neg ha1, if_pos ha2]
        exact List.nodup_append.2 ⟨h, List.nodup_singleton a,
          by intro x hx hxa; rw [List.mem_singleton] at hxa; subst hxa; exact ha1 hx⟩
      · simpa [ha1, ha2] using h

theorem nodup_subset_length_eq {α : Type} [DecidableEq α]
    {r eps : List α} (hnd : r.Nodup) (hsub : r ⊆ eps)
    (hlen : r.length = eps.length) : ∀ e ∈ eps, e ∈ r := by
  by_contra h
  push_neg at h
  obtain ⟨e, he, her⟩ := h
  have hsub' : r ⊆ eps.erase e := by
    intro x hx
    have hxe : x ≠ e := fun hh => her (hh ▸ hx)
    exact (List.mem_erase_of_ne hxe).2 (hsub hx)
  have h1 : r.length ≤ (eps.erase e).length :=
    (List.subperm_of_subset hnd hsub').length_le
  rw [List.length_erase_of_mem he] at h1
  have h2 : 1 ≤ eps.length := List.length_pos.2 (List.ne_nil_of_mem he)
  omega

theorem subset_nodup_length_eq {α : Type} [DecidableEq α]
    {r eps : List α} (hndr : r.Nodup) (hnde : eps.Nodup) (hsub : r ⊆ eps)
    (hall : ∀ e ∈ eps, e ∈ r) : r.length = eps.length :=
  Nat.le_antisymm (List.subperm_of_subset hndr hsub).length_le
    (List.subperm_of_subset hnde (fun e he => hall e he)).length_le

theorem waitLoop_char (health : Nat → String × Nat → Bool)
    (eps : List (String × Nat)) (hnd : eps.Nodup) :
    ∀ (fuel cycle : Nat) (ready : List (String × Nat)), 1 ≤ cycle →
      ready.Nodup →
      (∀ e, e ∈ ready ↔ e ∈ eps ∧ ∃ c, 1 ≤ c ∧ c < cycle ∧ health c e = true) →
      ((waitLoop health eps fuel cycle ready = .ok () ↔
        (1 ≤ fuel ∧ ∀ e ∈ eps, ∃ c, 1 ≤ c ∧ c < cycle + fuel ∧ health c e = true)) ∧
       (∀ l, waitLoop health eps fuel cycle ready = .error l →
        ∀ e, e ∈ l ↔
          (e ∈ eps ∧ ¬∃ c, 1 ≤ c ∧ c < cycle + fuel ∧ health c e = true))) := by
  intro fuel
  induction fuel with
  | zero =>
    intro cycle ready _ _ hchar
    constructor
    · simp [waitLoop]
    · intro l hl e
      simp only [waitLoop, Except.error.injEq] at hl
      rw [← hl, List.mem_filter, decide_eq_true_eq]
      constructor
      · rintro ⟨he, hr⟩
        refine ⟨he, ?_⟩
        rintro ⟨c, hc1, hc2, hc3⟩
        exact hr ((hchar e).2 ⟨he, c, hc1, by omega, hc3⟩)
      · rintro ⟨he, hresp⟩
        refine ⟨he, fun hr => ?_⟩
        obtain ⟨-, c, hc1, hc2, hc3⟩ := (hchar e).1 hr
        exact hresp ⟨c, hc1, by omega, hc3⟩
  | succ f ih =>
    intro cycle ready hcyc hrnd hchar
    have hrmem : ∀ e, e ∈ pollCycle health eps cycle ready ↔
        e ∈ eps ∧ ∃ c, 1 ≤ c ∧ c < cycle + 1 ∧ health c e = true := by
      intro e
      rw [pollCycle_mem, hchar e]
      constructor
      · rintro (⟨he, c, h1, h2, h3⟩ | ⟨he, hh⟩)
        · exact ⟨he, c, h1, by omega, h3⟩
        · exact ⟨he, cycle, hcyc, by omega, hh⟩
      · rintro ⟨he, c, h1, h2, h3⟩
        by_cases hc : c < cycle
        · exact Or.inl ⟨he, c, h1, hc, h3⟩
        · have hceq : c = cycle := by omega
          subst hceq
          exact Or.inr ⟨he, h3⟩
    have hrnd' : (pollCycle health eps cycle ready).Nodup :=
      pollCycle_nodup health cycle eps ready hrnd
    have hrsub : pollCycle health eps cycle ready ⊆ eps :=
      fun e he => ((hrmem e).1 he).1
    by_cases hlen : (pollCycle health eps cycle ready).length = eps.length
    · have hall : ∀ e ∈ eps, e ∈ pollCycle health eps cycle ready :=
        nodup_subset_length_eq hrnd' hrsub hlen
      have hok : waitLoop health eps (f + 1) cycle ready = .ok () := by
        rw [waitLoop]
        simp only [hlen, if_true]
      constructor
      · rw [hok]
        refine ⟨fun _ => ⟨by omega, fun e he => ?_⟩, fun _ => rfl⟩
        obtain ⟨-, c, h1, h2, h3⟩ := (hrmem e).1 (hall e he)
        exact ⟨c, h1, by omega, h3⟩
      · intro l hl
        rw [hok] at hl
        exact absurd hl (by simp)
    · have hstep : waitLoop health eps (f + 1) cycle ready =
          waitLoop health eps f (cycle + 1) (pollCycle health eps cycle ready) := by
        rw [waitLoop]
        simp only [hlen, if_false]
      have hnall : ¬∀ e ∈ eps, e ∈ pollCycle health eps cycle ready := by
        intro hall
        exact hlen (subset_nodup_length_eq hrnd' hnd hrsub hall)
      obtain ⟨ihok, iherr⟩ := ih (cycle + 1) (pollCycle health eps cycle ready)
        (by omega) hrnd' hrmem
      constructor
      · rw [hstep, ihok]
        constructor
        · rintro ⟨-, hresp⟩
          refine ⟨by omega, fun e he => ?_⟩
          obtain ⟨c, h1, h2, h3⟩ := hresp e he
          exact ⟨c, h1, by omega, h3⟩
        · rintro ⟨-, hresp⟩
          refine ⟨?_, fun e he => ?_⟩
          · by_contra hf
            have hf0 : f = 0 := by omega
            subst hf0
            apply hnall
            intro e he
            obtain ⟨c, h1, h2, h3⟩ := hresp e he
            exact (hrmem e).2 ⟨he, c, h1, by omega, h3⟩
          · obtain ⟨c, h1, h2, h3⟩ := hresp e he
            exact ⟨c, h1, by omega, h3⟩
      · intro l hl e
        rw [hstep] at hl
        rw [iherr l hl e]
        constructor
        · rintro ⟨he, hresp⟩
          refine ⟨he, ?_⟩
          rintro ⟨c, h1, h2, h3⟩
          exact hresp ⟨c, h1, by omega, h3⟩
        · rintro ⟨he, hresp⟩
          refine ⟨he, ?_⟩
          rintro ⟨c, h1, h2, h3⟩
          exact hresp ⟨c, h1, by omega, h3⟩

/-- C1 (amended): _wait_for_instances returns normally iff every endpoint
answered a health probe within the polling window; whenever the deadline
expires with at least one endpoint still pending it performs the fatal
exit (sys.exit(1)) itself, listing exactly the endpoints that never became
ready — even when other endpoints did become ready.  No partial ready
subset is ever returned to the caller. -/
theorem wait_for_instances_timeout_fatal (health : Nat → String × Nat → Bool)
    (eps : List (String × Nat)) (maxCycles : Nat)
    (hnd : eps.Nodup) (hmc : 1 ≤ maxCycles) :
    (wait_for_instances health eps maxCycles = .ok () ↔
      ∀ e ∈ eps, ∃ c, 1 ≤ c ∧ c ≤ maxCycles ∧ health c e = true) ∧
    (∀ l, wait_for_instances health eps maxCycles = .error l →
      (∀ e, e ∈ l ↔
        (e ∈ eps ∧ ¬∃ c, 1 ≤ c ∧ c ≤ maxCycles ∧ health c e = true)) ∧
      l ≠ []) := by
  obtain ⟨hok, herr⟩ := waitLoop_char health eps hnd maxCycles 1 []
    (le_refl 1) List.nodup_nil (by
      intro e
      simp only [List.not_mem_nil, false_iff]
      rintro ⟨-, c, h1, h2, -⟩
      omega)
  have hwin : ∀ e : String × Nat,
      (∃ c, 1 ≤ c ∧ c < 1 + maxCycles ∧ health c e = true) ↔
      (∃ c, 1 ≤ c ∧ c ≤ maxCycles ∧ health c e = true) := by
    intro e
    constructor
    · rintro ⟨c, h1, h2, h3⟩; exact ⟨c, h1, by omega, h3⟩
    · rintro ⟨c, h1, h2, h3⟩; exact ⟨c, h1, by omega, h3⟩
  constructor
  · rw [wait_for_instances, hok]
    constructor
    · rintro ⟨-, h⟩
      exact fun e he => (hwin e).1 (h e he)
    · intro h
      exact ⟨hmc, fun e he => (hwin e).2 (h e he)⟩
  · intro l hl
    have hmem : ∀ e, e ∈ l ↔
        (e ∈ eps ∧ ¬∃ c, 1 ≤ c ∧ c ≤ maxCycles ∧ health c e = true) := by
      intro e
      rw [herr l hl e]
      constructor
      · rintro ⟨he, hresp⟩
        exact ⟨he, fun hh => hresp ((hwin e).2 hh)⟩
      · rintro ⟨he, hresp⟩
        exact ⟨he, fun hh => hresp ((hwin e).1 hh)⟩
    refine ⟨hmem, ?_⟩
    have hnok : ¬∀ e ∈ eps, ∃ c, 1 ≤ c ∧ c ≤ maxCycles ∧ health c e = true := by
      intro hall
      have hisok : waitLoop health eps maxCycles 1 [] = .ok () :=
        hok.2 ⟨hmc, fun e he => (hwin e).2 (hall e he)⟩
      rw [wait_for_instances, hisok] at hl
      exact absurd hl (by simp)
    push_neg at hnok
    obtain ⟨e, he, hne⟩ := hnok
    have hel : e ∈ l := by
      rw [hmem e]
      refine ⟨he, ?_⟩
      rintro ⟨c, h1, h2, h3⟩
      exact hne c h1 h2 h3
    intro hnil
    rw [hnil] at hel
    exact absurd hel (List.not_mem_nil e)

/-- Health oracle for the end-to-end scenario: endpoints a and b answer
from the first cycle, endpoint c never answers. -/
def healthScenario : Nat → String × Nat → Bool :=
  fun _ e => decide (e ≠ ("c", 8001))

/-- Counterexample to C1 as stated: with 3 endpoints of which exactly one
(c) never responds within the timeout (6 polling cycles of the 30s/5s
scenario), _wait_for_instances does not return the two ready endpoints —
it takes the fatal sys.exit(1) branch (the error result in this model)
naming c.  The fatal exit happens inside _wait_for_instances itself even
though two endpoints became ready; no partial subset is returned. -/
theorem wait_for_instances_ready_subset_refuted :
    wait_for_instances healthScenario
      [("a", 8000), ("b", 8000), ("c", 8001)] 6 = .error [("c", 8001)] := by
  rfl

/-- Witness for the amended C1 theorem: when every endpoint responds in
cycle 1 the barrier returns normally, and on the scenario oracle the fatal
branch carries exactly the never-ready endpoint c. -/
theorem wait_for_instances_timeout_fatal_witness :
    wait_for_instances (fun _ _ => true) [("a", 8000), ("b", 8000)] 1 = .ok () ∧
    (("c", 8001) ∈ ([("c", 8001)] : List (String × Nat)) ∧
      ([("c", 8001)] : List (String × Nat)) ≠ []) := by
  refine ⟨?_, ?_, ?_⟩
  · exact (wait_for_instances_timeout_fatal (fun _ _ => true)
      [("a", 8000), ("b", 8000)] 1 (by decide) (le_refl 1)).1.mpr
      (fun e _ => ⟨1, le_refl 1, le_refl 1, rfl⟩)
  · exact List.mem_singleton.2 rfl
  · exact (wait_for_instances_timeout_fatal healthScenario
      [("a", 8000), ("b", 8000), ("c", 8001)] 6 (by decide) (by omega)).2
      [("c", 8001)] (by rfl) |>.2

/-! Job lifecycle: wait_for_endpoints from scheduler.py.  The poll loop is
driven by two oracles indexed by the poll iteration: the result of
_read_endpoints_file (none when missing/empty, some lines otherwise) and
the result of _get_job_state (none when the scheduler no longer tracks the
job).  sys.exit(1) is the fatal outcome; the unbounded while loop gets a
fuel parameter, with the outer none meaning the loop is still running. -/

/-- Outcome of one wait_for_endpoints run. -/
inductive WaitOutcome where
  | success (endpoints : List String)
  | fatal (message : String)
deriving DecidableEq

/-- The error message printed before sys.exit(1) when the job left the
scheduler without producing endpoints (it names the job id). -/
def untrackedMsg (job_id : String) : String :=
  "Error: Job " ++ job_id ++
    " is no longer tracked by the scheduler and endpoints file was not found."

/-- Python truthiness test (if endpoints:) on the reader result: both None
and an empty line list keep polling. -/
def epsReady (r : Option (List String)) : Option (List String) :=
  match r with
  | some eps => if eps = [] then none else some eps
  | none => none

/-- wait_for_endpoints: each iteration first checks the endpoints file
(success when non-empty), then the job state (fatal exit naming the job id
when untracked), else sleeps and repeats. -/
def wait_for_endpoints (read : Nat → Option (List String))
    (state : Nat → Option String) (job_id : String) :
    Nat → Nat → Option WaitOutcome
  | 0, _ => none
  | fuel + 1, t =>
    match epsReady (read t) with
    | some eps => some (.success eps)
    | none =>
      match state t with
      | none => some (.fatal (untrackedMsg job_id))
      | some _ => wait_for_endpoints read state job_id fuel (t + 1)

theorem wait_for_endpoints_step (read : Nat → Option (List String))
    (state : Nat → Option String) (job_id : String) :
    ∀ (k t fuel : Nat),
      (∀ u, u < k → epsReady (read (t + u)) = none ∧ state (t + u) ≠ none) →
      k < fuel →
      wait_for_endpoints read state job_id fuel t =
        wait_for_endpoints read state job_id (fuel - k) (t + k) := by
  intro k
  induction k with
  | zero => intro t fuel _ _; simp
  | succ k ih =>
    intro t fuel hpre hk
    match fuel, hk with
    | f + 1, hk =>
      have h0 := hpre 0 (by omega)
      rw [Nat.add_zero] at h0
      obtain ⟨s, hs⟩ := Option.ne_none_iff_exists'.mp h0.2
      have hunfold : wait_for_endpoints read state job_id (f + 1) t =
          wait_for_endpoints read state job_id f (t + 1) := by
        rw [wait_for_endpoints, h0.1, hs]
      rw [hunfold, ih (t + 1) f (fun u hu => by
          rw [show t + 1 + u = t + (u + 1) by omega]
          exact hpre (u + 1) (by omega)) (by omega)]
      congr 1
      · omega
      · omega

/-- C5: while polling for the endpoints artifact, (a) if the scheduler
stops tracking the job at poll k before any poll saw a non-empty endpoints
file, the run ends in the fatal non-zero exit whose message names the job
id; (b) if a non-empty endpoints file appears first, the run succeeds and
returns exactly the lines the reader produced; and the fatal message
contains the job id as a substring by construction. -/
theorem wait_for_endpoints_spec (read : Nat → Option (List String))
    (state : Nat → Option String) (job_id : String) (k fuel : Nat) :
    ((∀ t, t ≤ k → epsReady (read t) = none) → (∀ t, t < k → state t ≠ none) →
      state k = none → k < fuel →
      wait_for_endpoints read state job_id fuel 0 =
        some (.fatal (untrackedMsg job_id))) ∧
    (∀ eps, (∀ t, t < k → epsReady (read t) = none ∧ state t ≠ none) →
      epsReady (read k) = some eps → k < fuel →
      wait_for_endpoints read state job_id fuel 0 = some (.success eps)) ∧
    (∃ pre post, untrackedMsg job_id = pre ++ job_id ++ post) := by
  refine ⟨?_, ?_, ?_⟩
  · intro hread hstate hk hfuel
    rw [wait_for_endpoints_step read state job_id k 0 fuel
      (fun u hu => ⟨hread (0 + u) (by omega), hstate (0 + u) (by omega)⟩) hfuel]
    match hg : fuel - k, (by omega : 1 ≤ fuel - k) with
    | g + 1, _ =>
      rw [wait_for_endpoints, Nat.zero_add, hread k (le_refl k), hk]
  · intro eps hpre hread hfuel
    rw [wait_for_endpoints_step read state job_id k 0 fuel
      (fun u hu => by rw [Nat.zero_add]; exact hpre u hu) hfuel]
    match hg : fuel - k, (by omega : 1 ≤ fuel - k) with
    | g + 1, _ =>
      rw [wait_for_endpoints, Nat.zero_add, hread]
  · exact ⟨"Error: Job ",
      " is no longer tracked by the scheduler and endpoints file was not found.",
      rfl⟩

/-- Job-state trace of the end-to-end scenario: queued, queued, running,
running, then untracked. -/
def stateScenario : Nat → Option String :=
  fun t => if t < 2 then some "Q" else if t < 4 then some "R" else none

/-- Reader trace where a non-empty endpoints file appears at poll 2. -/
def readAppears : Nat → Option (List String) :=
  fun t => if t = 2 then some ["n1:8000", "n2:8001"] else none

/-- Witness for C5: the Q,Q,R,R,untracked trace with no endpoints file
ends in the fatal exit with the message naming the job id, and a run where
the artifact appears at poll 2 succeeds with its lines. -/
theorem wait_for_endpoints_spec_witness :
    wait_for_endpoints (fun _ => none) stateScenario "12345.aurora" 10 0 =
      some (.fatal (untrackedMsg "12345.aurora")) ∧
    wait_for_endpoints readAppears (fun _ => some "R") "12345.aurora" 10 0 =
      some (.success ["n1:8000", "n2:8001"]) ∧
    (∃ pre post, untrackedMsg "12345.aurora" = pre ++ "12345.aurora" ++ post) := by
  refine ⟨?_, ?_, ?_⟩
  · exact (wait_for_endpoints_spec (fun _ => none) stateScenario "12345.aurora"
      4 10).1 (by decide) (by decide) (by decide) (by omega)
  · exact (wait_for_endpoints_spec readAppears (fun _ => some "R") "12345.aurora"
      2 10).2.1 ["n1:8000", "n2:8001"] (by decide) (by decide) (by omega)
  · exact (wait_for_endpoints_spec (fun _ => none) stateScenario "12345.aurora"
      4 10).2.2

/-! Benchmark dispatcher: the grouping and command assembly of cmd_bench
in cli.py.  Endpoints are (host, port) pairs after the host:port rsplit;
ports stay strings as in the source.  hosts_by_port is a Python dict built
with setdefault/append, modelled as an insertion-ordered association list;
the per-rank program arguments (env flags, bash invocation of vllm bench
serve) are identical for every segment and abstracted as one list. -/

/-- One setdefault(port, []).append(host) step on the ordered dict. -/
def addHost (acc : List (String × List String)) (host port : String) :
    List (String × List String) :=
  match acc with
  | [] => [(port, [host])]
  | (p, hs) :: rest =>
    if p = port then (p, hs ++ [host]) :: rest
    else (p, hs) :: addHost rest host port

/-- The hosts_by_port dict of cmd_bench. -/
def hostsByPort (eps : List (String × String)) : List (String × List String) :=
  eps.foldl (fun acc e => addHost acc e.1 e.2) []

/-- Python comma-join of the host list. -/
def joinComma : List String → String
  | [] => ""
  | [h] => h
  | h :: rest => h ++ "," ++ joinComma rest

/-- The per-segment argv: -n with the rank count equal to the host count,
-hosts with the comma-joined host list, then the shared rank program. -/
def renderSegment (rank_cmd : List String) (seg : String × List String) :
    List String :=
  "-n" :: natStr seg.2.length :: "-hosts" :: joinComma seg.2 :: rank_cmd

/-- MPMD composition: the segments joined with the mpiexec multi-program
separator colon (a colon argv element before every segment but the first). -/
def joinMPMD : List (List String) → List String
  | [] => []
  | s :: rest => s ++ rest.flatMap (fun t => ":" :: t)

/-- The full mpiexec command line built by cmd_bench. -/
def bench_mpi_cmd (eps : List (String × String)) (rank_cmd : List String) :
    List String :=
  ["mpiexec", "--no-abort-on-failure"] ++
    joinMPMD ((hostsByPort eps).map (renderSegment rank_cmd))

theorem alookup_addHost (acc : List (String × List String)) (h p q : String) :
    alookup (addHost acc h p) q =
      if p = q then some ((alookup acc q).getD [] ++ [h]) else alookup acc q := by
  induction acc with
  | nil =>
    by_cases hpq : p = q <;> simp [addHost, alookup, hpq]
  | cons kv rest ih =>
    obtain ⟨a, hs⟩ := kv
    by_cases hap : a = p
    · subst hap
      by_cases haq : a = q
      · subst haq
        simp [addHost, alookup]
      · simp [addHost, alookup, haq]
    · by_cases haq : a = q
      · subst haq
        have hpq : ¬p = a := fun hh => hap hh.symm
        simp [addHost, alookup, hap, hpq]
      · simp [addHost, alookup, hap, haq, ih]

theorem keys_addHost (acc : List (String × List String)) (h p : String) :
    (addHost acc h p).map Prod.fst =
      if p ∈ acc.map Prod.fst then acc.map Prod.fst
      else acc.map Prod.fst ++ [p] := by
  induction acc with
  | nil => simp [addHost]
  | cons kv rest ih =>
    obtain ⟨a, hs⟩ := kv
    by_cases hap : a = p
    · subst hap
      simp [addHost]
    · have hpa : ¬p = a := fun hh => hap hh.symm
      by_cases hmem : p ∈ rest.map Prod.fst
      · simp [addHost, hap, ih, hmem, hpa]
      · simp [addHost, hap, ih, hmem, hpa]

theorem nodup_keys_addHost (acc : List (String × List String)) (h p : String)
    (hnd : (acc.map Prod.fst).Nodup) :
    ((addHost acc h p).map Prod.fst).Nodup := by
  rw [keys_addHost]
  by_cases hmem : p ∈ acc.map Prod.fst
  · simpa [hmem] using hnd
  · rw [if_neg hmem]
    exact List.nodup_append.2 ⟨hnd, List.nodup_singleton p,
      by intro x hx hxp; rw [List.mem_singleton] at hxp; subst hxp; exact hmem hx⟩

theorem hostsByPort_getD :
    ∀ (eps : List (String × String)) (acc : List (String × List String)) (q : String),
      (alookup (eps.foldl (fun a e => addHost a e.1 e.2) acc) q).getD [] =
        (alookup acc q).getD [] ++ (eps.filter (fun e => e.2 = q)).map Prod.fst := by
  intro eps
  induction eps with
  | nil => simp
  | cons e rest ih =>
    intro acc q
    rw [List.foldl_cons, ih, alookup_addHost]
    by_cases he : e.2 = q
    · rw [if_pos he]
      simp [List.filter_cons, he]
    · rw [if_neg he]
      simp [List.filter_cons, he]

theorem hostsByPort_keys :
    ∀ (eps : List (String × String)) (acc : List (String × List String)) (q : String),
      q ∈ (eps.foldl (fun a e => addHost a e.1 e.2) acc).map Prod.fst ↔
        q ∈ acc.map Prod.fst ∨ q ∈ eps.map Prod.snd := by
  intro eps
  induction eps with
  | nil => simp
  | cons e rest ih =>
    intro acc q
    rw [List.foldl_cons, ih, keys_addHost]
    by_cases hmem : e.2 ∈ acc.map Prod.fst
    · rw [if_pos hmem]
      simp only [List.map_cons, List.mem_cons]
      refine ⟨fun h => h.elim Or.inl (fun hr => Or.inr (Or.inr hr)), fun h => ?_⟩
      rcases h with h | h | h
      exacts [Or.inl h, Or.inl (h ▸ hmem), Or.inr h]
    · rw [if_neg hmem]
      simp only [List.map_cons, List.mem_cons, List.mem_append,
        List.mem_singleton, List.not_mem_nil, or_false]
      refine ⟨fun h => ?_, fun h => ?_⟩
      · rcases h with (h | h) | h
        exacts [Or.inl h, Or.inr (Or.inl h), Or.inr (Or.inr h)]
      · rcases h with h | h | h
        exacts [Or.inl (Or.inl h), Or.inl (Or.inr h), Or.inr h]

theorem hostsByPort_nodup_keys :
    ∀ (eps : List (String × String)) (acc : List (String × List String)),
      (acc.map Prod.fst).Nodup →
      ((eps.foldl (fun a e => addHost a e.1 e.2) acc).map Prod.fst).Nodup := by
  intro eps
  induction eps with
  | nil => intro acc h; simpa using h
  | cons e rest ih =>
    intro acc h
    rw [List.foldl_cons]
    exact ih _ (nodup_keys_addHost acc e.1 e.2 h)

theorem mem_assoc_of_nodup {α : Type} (l : List (String × α)) (p : String) (v : α)
    (hnd : (l.map Prod.fst).Nodup) : (p, v) ∈ l ↔ alookup l p = some v := by
  induction l with
  | nil => simp [alookup]
  | cons kv rest ih =>
    obtain ⟨a, b⟩ := kv
    simp only [List.map_cons, List.nodup_cons] at hnd
    have ihr := ih hnd.2
    constructor
    · intro hm
      rcases List.mem_cons.mp hm with h | h
      · injection h with h1 h2
        subst h1
        simp [alookup, h2]
      · have hp : p ∈ rest.map Prod.fst := List.mem_map.2 ⟨(p, v), h, rfl⟩
        have hap : ¬a = p := fun hh => hnd.1 (hh ▸ hp)
        simp only [alookup]
        rw [if_neg hap]
        exact ihr.1 h
    · intro hm
      by_cases hap : a = p
      · subst hap
        simp only [alookup, if_true] at hm
        injection hm with hb
        subst hb
        exact List.mem_cons_self _ _
      · simp only [alookup] at hm
        rw [if_neg hap] at hm
        exact List.mem_cons_of_mem _ (ihr.2 hm)

theorem string_length_zero (s : String) (h : s.length = 0) : s = "" := by
  apply String.ext
  have hd : s.data.length = 0 := h
  simpa using List.length_eq_zero.1 hd

theorem natStr_ne_colon (n : Nat) : natStr n ≠ ":" := by
  intro h
  have h1 := parseNat_natStr n
  rw [h] at h1
  have h2 : parseNat ":" = none := rfl
  rw [h2] at h1
  exact Option.noConfusion h1

theorem joinComma_ne_colon : ∀ (hs : List String), (∀ h ∈ hs, h ≠ ":") →
    joinComma hs ≠ ":" := by
  intro hs hh
  match hs with
  | [] => exact fun h => absurd h (by decide)
  | [h] => exact hh h (List.mem_singleton.2 rfl)
  | h :: h2 :: t =>
    intro heq
    have hj : joinComma (h :: h2 :: t) = h ++ "," ++ joinComma (h2 :: t) := rfl
    rw [hj] at heq
    have hlen := congrArg String.length heq
    rw [String.length_append, String.length_append] at hlen
    have hcomma : (",").length = 1 := rfl
    have hcolon : (":").length = 1 := rfl
    rw [hcomma, hcolon] at hlen
    have he : h = "" := string_length_zero h (by omega)
    have hje : joinComma (h2 :: t) = "" := string_length_zero _ (by omega)
    rw [he, hje] at heq
    exact absurd heq (by decide)

theorem colon_not_mem_renderSegment (rank_cmd : List String) (p : String)
    (hs : List String) (h1 : ":" ∉ rank_cmd) (hh : ∀ h ∈ hs, h ≠ ":") :
    ":" ∉ renderSegment rank_cmd (p, hs) := by
  intro hmem
  simp only [renderSegment, List.mem_cons] at hmem
  rcases hmem with h | h | h | h
  · exact absurd h (by decide)
  · exact natStr_ne_colon hs.length h.symm
  · exact absurd h (by decide)
  · rcases h with h' | h'
    · exact joinComma_ne_colon hs hh h'.symm
    · exact h1 h'

theorem count_flatMap_colon (segs : List (List String))
    (h : ∀ s ∈ segs, ":" ∉ s) :
    (segs.flatMap (fun t => ":" :: t)).count ":" = segs.length := by
  induction segs with
  | nil => rfl
  | cons s rest ih =>
    rw [List.flatMap_cons, List.count_append, List.count_cons_self,
      List.count_eq_zero.2 (h s (List.mem_cons_self s rest)),
      ih (fun t ht => h t (List.mem_cons_of_mem s ht))]
    simp [List.length_cons]
    omega

theorem count_joinMPMD (segs : List (List String)) (h : ∀ s ∈ segs, ":" ∉ s) :
    (joinMPMD segs).count ":" = segs.length - 1 := by
  match segs with
  | [] => rfl
  | s :: rest =>
    have hs0 : s.count ":" = 0 :=
      List.count_eq_zero.2 (h s (List.mem_cons_self s rest))
    have hr := count_flatMap_colon rest (fun t ht => h t (List.mem_cons_of_mem s ht))
    have hj : joinMPMD (s :: rest) = s ++ rest.flatMap (fun t => ":" :: t) := rfl
    rw [hj, List.count_append, hs0, hr]
    simp

/-- C6: cmd_bench groups the endpoints by port into one segment per
distinct port (the dict keys are free of duplicates and are exactly the
ports occurring among the endpoints); each segment lists exactly the hosts
sharing its port, in order, is non-empty, and is rendered with a rank
count (-n) equal to its host count; the segments are joined into a single
mpiexec command with the colon multi-program separator appearing exactly
once between consecutive segments.  The concrete example produces the two
segments of the spec. -/
theorem bench_grouping (eps : List (String × String)) :
    ((hostsByPort eps).map Prod.fst).Nodup ∧
    (∀ p, p ∈ (hostsByPort eps).map Prod.fst ↔ p ∈ eps.map Prod.snd) ∧
    (∀ p hs, (p, hs) ∈ hostsByPort eps →
      hs = (eps.filter (fun e => e.2 = p)).map Prod.fst ∧
      hs ≠ [] ∧
      ∀ rank_cmd, renderSegment rank_cmd (p, hs) =
        "-n" :: natStr hs.length :: "-hosts" :: joinComma hs :: rank_cmd) ∧
    (∀ rank_cmd, ":" ∉ rank_cmd → (∀ e ∈ eps, e.1 ≠ ":") →
      (bench_mpi_cmd eps rank_cmd).count ":" = (hostsByPort eps).length - 1) ∧
    hostsByPort [("a", "8000"), ("b", "8000"), ("c", "8001")] =
      [("8000", ["a", "b"]), ("8001", ["c"])] := by
  have hnd : ((hostsByPort eps).map Prod.fst).Nodup :=
    hostsByPort_nodup_keys eps [] (by simp)
  have hkeys : ∀ p, p ∈ (hostsByPort eps).map Prod.fst ↔ p ∈ eps.map Prod.snd := by
    intro p
    have := hostsByPort_keys eps [] p
    simpa using this
  have hexact : ∀ p hs, (p, hs) ∈ hostsByPort eps →
      hs = (eps.filter (fun e => e.2 = p)).map Prod.fst := by
    intro p hs hmem
    have halk : alookup (hostsByPort eps) p = some hs :=
      (mem_assoc_of_nodup _ p hs hnd).1 hmem
    have hg := hostsByPort_getD eps [] p
    rw [show (eps.foldl (fun a e => addHost a e.1 e.2) []) = hostsByPort eps from rfl,
      halk] at hg
    simpa using hg
  refine ⟨hnd, hkeys, ?_, ?_, by rfl⟩
  · intro p hs hmem
    refine ⟨hexact p hs hmem, ?_, fun _ => rfl⟩
    have hp : p ∈ (hostsByPort eps).map Prod.fst :=
      List.mem_map.2 ⟨(p, hs), hmem, rfl⟩
    obtain ⟨e, he, hep⟩ := List.mem_map.1 ((hkeys p).1 hp)
    intro hnil
    have hef : e ∈ eps.filter (fun e => e.2 = p) :=
      List.mem_filter.2 ⟨he, by rw [decide_eq_true_eq]; exact hep⟩
    have : e.1 ∈ (eps.filter (fun e => e.2 = p)).map Prod.fst :=
      List.mem_map.2 ⟨e, hef, rfl⟩
    rw [← hexact p hs hmem, hnil] at this
    exact absurd this (List.not_mem_nil e.1)
  · intro rank_cmd hrc heps
    have hsegs : ∀ s ∈ (hostsByPort eps).map (renderSegment rank_cmd), ":" ∉ s := by
      intro s hsmem
      obtain ⟨⟨p, hs⟩, hmemseg, rfl⟩ := List.mem_map.1 hsmem
      refine colon_not_mem_renderSegment rank_cmd p hs hrc ?_
      intro h hmemh
      rw [hexact p hs hmemseg] at hmemh
      obtain ⟨e, hef, rfl⟩ := List.mem_map.1 hmemh
      exact heps e (List.mem_filter.1 hef).1
    have hcmd : bench_mpi_cmd eps rank_cmd =
        ["mpiexec", "--no-abort-on-failure"] ++
          joinMPMD ((hostsByPort eps).map (renderSegment rank_cmd)) := rfl
    rw [hcmd, List.count_append, count_joinMPMD _ hsegs]
    have hpre : (["mpiexec", "--no-abort-on-failure"] : List String).count ":" = 0 := by
      decide
    rw [hpre, List.length_map]
    omega

/-- Witness for C6 at the concrete endpoints of the spec example: the
segment of port 8000 lists exactly hosts a and b in order, and the full
command with a concrete rank program contains exactly one colon separator
for the two segments. -/
theorem bench_grouping_witness :
    (["a", "b"] =
      (([("a", "8000"), ("b", "8000"), ("c", "8001")] : List (String × String)).filter
        (fun e => e.2 = "8000")).map Prod.fst) ∧
    (bench_mpi_cmd [("a", "8000"), ("b", "8000"), ("c", "8001")]
      ["bash", "-l", "-c", "vllm bench serve"]).count ":" = 1 := by
  have h := bench_grouping [("a", "8000"), ("b", "8000"), ("c", "8001")]
  constructor
  · exact (h.2.2.1 "8000" ["a", "b"] (by decide)).1
  · have hc := h.2.2.2.1 ["bash", "-l", "-c", "vllm bench serve"]
      (by decide) (by decide)
    rw [hc]
    decide

/-! Endpoints artifact readers.  Two different readers exist in the
source: _read_endpoints_file in cli.py (used by bench and shutdown) walks
the file line by line, strips each line and skips blank lines and lines
whose stripped form starts with a hash; _read_endpoints_file in
scheduler.py (used by wait_for_endpoints) strips the whole content and
splits it into lines with no comment filtering.  Python str.strip,
str.splitlines (newline-only files) and str.startswith are modelled by
structural char-list functions so that concrete runs evaluate. -/

/-- The whitespace characters stripped by Python str.strip in these text
files (space, tab, newline, carriage return). -/
def isSpaceChar (c : Char) : Bool :=
  c.toNat = 32 || c.toNat = 9 || c.toNat = 10 || c.toNat = 13

/-- Python str.strip on the character list. -/
def pyStrip (s : String) : String :=
  String.mk (((s.data.dropWhile isSpaceChar).reverse.dropWhile isSpaceChar).reverse)

/-- Split a character list at newline characters (the separators of the
artifact, written one endpoint per line). -/
def splitNlChars : List Char → List (List Char)
  | [] => [[]]
  | c :: rest =>
    let r := splitNlChars rest
    if c = '\n' then [] :: r
    else
      match r with
      | [] => [[c]]
      | h :: t => (c :: h) :: t

/-- String.splitOn newline, the model of iterating a text file line by
line (each yielded line without its newline). -/
def splitOnNl (s : String) : List String :=
  (splitNlChars s.data).map String.mk

/-- Python str.splitlines: the empty string yields no lines at all. -/
def pySplitlines (s : String) : List String :=
  if s = "" then [] else splitOnNl s

/-- Python s.startswith of a single hash. -/
def pyStartsHash (s : String) : Bool :=
  match s.data with
  | c :: _ => c = '#'
  | [] => false

/-- cli.py _read_endpoints_file: append each stripped line that is
non-blank and not hash-prefixed. -/
def cli_read_endpoints (content : String) : List String :=
  (splitOnNl content).foldl
    (fun acc raw =>
      if pyStrip raw ≠ "" ∧ pyStartsHash (pyStrip raw) = false
      then acc ++ [pyStrip raw] else acc) []

/-- scheduler.py _read_endpoints_file (local branch): none when the file
is missing or has size zero (content modelled as empty), otherwise all
lines of the stripped content — with no comment filtering. -/
def sched_read_endpoints (content : String) : Option (List String) :=
  if content = "" then none else some (pySplitlines (pyStrip content))

theorem foldl_if_append {α β : Type} (p : α → Prop) [DecidablePred p] (g : α → β) :
    ∀ (l : List α) (acc : List β),
      l.foldl (fun a x => if p x then a ++ [g x] else a) acc =
        acc ++ (l.filter (fun x => decide (p x))).map g := by
  intro l
  induction l with
  | nil => simp
  | cons x rest ih =>
    intro acc
    rw [List.foldl_cons]
    by_cases hx : p x
    · rw [if_pos hx, ih]
      simp [List.filter_cons, hx]
    · rw [if_neg hx, ih]
      simp [List.filter_cons, hx]

/-- C8 (amended): the benchmark/shutdown reader in cli.py returns exactly
the stripped lines that are non-blank and not hash-prefixed, while the
job-wait reader in scheduler.py returns every line of the stripped content
unfiltered (so hash-prefixed lines are not ignored there); the artifact is
still plain text parsed one line at a time by both. -/
theorem endpoints_readers_spec (content : String) :
    (∀ l, l ∈ cli_read_endpoints content ↔
      ∃ raw, raw ∈ splitOnNl content ∧ pyStrip raw = l ∧ l ≠ "" ∧
        pyStartsHash l = false) ∧
    (content ≠ "" →
      sched_read_endpoints content = some (pySplitlines (pyStrip content))) := by
  constructor
  · intro l
    have hfold := foldl_if_append
      (fun raw => pyStrip raw ≠ "" ∧ pyStartsHash (pyStrip raw) = false)
      pyStrip (splitOnNl content) []
    rw [cli_read_endpoints, hfold, List.nil_append]
    rw [List.mem_map]
    constructor
    · rintro ⟨raw, hraw, rfl⟩
      obtain ⟨hmem, hcond⟩ := List.mem_filter.1 hraw
      rw [decide_eq_true_eq] at hcond
      exact ⟨raw, hmem, rfl, hcond.1, hcond.2⟩
    · rintro ⟨raw, hmem, rfl, h1, h2⟩
      exact ⟨raw, List.mem_filter.2 ⟨hmem, by rw [decide_eq_true_eq]; exact ⟨h1, h2⟩⟩, rfl⟩
  · intro h
    rw [sched_read_endpoints, if_neg h]

/-- Counterexample to C8 as stated: on a file whose first line is a hash
comment, the cli.py reader drops it but the scheduler.py job-wait reader
returns it — the comment line is not ignored by every reader. -/
theorem endpoints_reader_comment_divergence :
    cli_read_endpoints "# staging\nn1:8000\nn2:8001" = ["n1:8000", "n2:8001"] ∧
    sched_read_endpoints "# staging\nn1:8000\nn2:8001" =
      some ["# staging", "n1:8000", "n2:8001"] ∧
    pyStartsHash "# staging" = true := by
  refine ⟨rfl, rfl, rfl⟩

/-- Witness for the amended C8 theorem on a concrete artifact. -/
theorem endpoints_readers_spec_witness :
    sched_read_endpoints "n1:8000\nn2:8001" = some ["n1:8000", "n2:8001"] ∧
    ("n1:8000" ∈ cli_read_endpoints " n1:8000 \n\n# x") := by
  constructor
  · have h := (endpoints_readers_spec "n1:8000\nn2:8001").2 (by decide)
    rw [h]
    rfl
  · exact (endpoints_readers_spec " n1:8000 \n\n# x").1 "n1:8000" |>.2
      ⟨" n1:8000 ", by decide, rfl, by decide, rfl⟩

/-! Benchmark result parsing and aggregation: _parse_bench_results and the
summary step of cmd_bench in cli.py.  A result file is its filename stem
plus the two JSON fields the code reads (base_url, defaulting to the empty
string, and output_throughput, absent or non-numeric modelled as none);
the directory listing order (sorted glob) is the input list order.
Python str.replace / rstrip / endswith / slicing are modelled by
structural char-list functions. -/

structure BenchFile where
  stem : String
  base_url : Option String
  output_throughput : Option ℚ
deriving DecidableEq

structure BenchResult where
  endpoint : String
  output_throughput_tok_s : Option ℚ
deriving DecidableEq

/-- Does pat occur as a prefix; if so return the remainder. -/
def stripPre : List Char → List Char → Option (List Char)
  | [], l => some l
  | _ :: _, [] => none
  | p :: ps, c :: rest => if c = p then stripPre ps rest else none

/-- Python str.replace (all occurrences, left to right), with fuel equal
to the scanned length so the recursion is structural. -/
def replaceAllAux (pat repl : List Char) : Nat → List Char → List Char
  | 0, l => l
  | fuel + 1, l =>
    match l with
    | [] => []
    | c :: rest =>
      match stripPre pat l, pat with
      | some rem, _ :: _ => repl ++ replaceAllAux pat repl fuel rem
      | _, _ => c :: replaceAllAux pat repl fuel rest

def pyReplace (s pat repl : String) : String :=
  String.mk (replaceAllAux pat.data repl.data s.data.length s.data)

/-- Python rstrip of slashes. -/
def pyRstripSlash (s : String) : String :=
  String.mk ((s.data.reverse.dropWhile (fun c => c = '/')).reverse)

/-- Python endswith of the /v1 suffix. -/
def endsSlashV1 (s : String) : Bool :=
  decide (s.data.reverse.take 3 = ['1', 'v', '/'])

/-- Python slicing [:-3]. -/
def dropLast3 (s : String) : String :=
  String.mk (s.data.take (s.data.length - 3))

/-- The endpoint recovered from the embedded base_url: strip the http or
https scheme, strip trailing slashes, drop a trailing /v1. -/
def urlToEndpoint (u : String) : String :=
  let s1 := pyReplace (pyReplace u "http://" "") "https://" ""
  let s2 := pyRstripSlash s1
  if endsSlashV1 s2 then dropLast3 s2 else s2

/-- Model of _parse_bench_results: one entry per result file, correlated to its
endpoint via base_url when present and non-empty, else the filename stem. -/
def parseBenchResults (files : List BenchFile) : List BenchResult :=
  files.map (fun f =>
    { endpoint :=
        if f.base_url.getD "" ≠ "" then urlToEndpoint (f.base_url.getD "")
        else f.stem,
      output_throughput_tok_s := f.output_throughput })

/-- The TOTAL printed by cmd_bench: the sum of the numeric per-endpoint
throughputs. -/
def benchTotal (results : List BenchResult) : ℚ :=
  (results.filterMap (fun r => r.output_throughput_tok_s)).sum

/-- The cross-endpoint aggregate values the cmd_bench summary computes
(cli.py prints each per-endpoint value and then exactly one aggregate
line, the TOTAL); taken from the source summary loop. -/
def codeAggregates (results : List BenchResult) : List ℚ :=
  [benchTotal results]

/-- Modelled from the spec: the per-endpoint throughput values. -/
def specThroughputs (results : List BenchResult) : List ℚ :=
  results.filterMap (fun r => r.output_throughput_tok_s)

/-- Modelled from the spec: the minimum throughput across endpoints. -/
def listMin : List ℚ → Option ℚ
  | [] => none
  | x :: rest => some (rest.foldl min x)

/-- Modelled from the spec: the maximum throughput across endpoints. -/
def listMax : List ℚ → Option ℚ
  | [] => none
  | x :: rest => some (rest.foldl max x)

/-- Modelled from the spec: the mean throughput across endpoints. -/
def listMean (l : List ℚ) : Option ℚ :=
  match l with
  | [] => none
  | _ :: _ => some (l.sum / (l.length : ℚ))

/-- Counterexample to C9 as stated: on two result files with throughputs
10 and 30, the spec-described aggregation would report min 10, max 30 and
mean 20, but the summary step of cmd_bench computes exactly one
cross-endpoint aggregate, the total 40 — none of min, max or mean is among
the values it produces. -/
theorem bench_min_max_mean_refuted :
    codeAggregates (parseBenchResults
      [{ stem := "rank_0", base_url := none, output_throughput := some 10 },
       { stem := "rank_1", base_url := none, output_throughput := some 30 }]) = [40] ∧
    listMin (specThroughputs (parseBenchResults
      [{ stem := "rank_0", base_url := none, output_throughput := some 10 },
       { stem := "rank_1", base_url := none, output_throughput := some 30 }])) = some 10 ∧
    listMax (specThroughputs (parseBenchResults
      [{ stem := "rank_0", base_url := none, output_throughput := some 10 },
       { stem := "rank_1", base_url := none, output_throughput := some 30 }])) = some 30 ∧
    listMean (specThroughputs (parseBenchResults
      [{ stem := "rank_0", base_url := none, output_throughput := some 10 },
       { stem := "rank_1", base_url := none, output_throughput := some 30 }])) = some 20 ∧
    (10 : ℚ) ∉ codeAggregates (parseBenchResults
      [{ stem := "rank_0", base_url := none, output_throughput := some 10 },
       { stem := "rank_1", base_url := none, output_throughput := some 30 }]) ∧
    (20 : ℚ) ∉ codeAggregates (parseBenchResults
      [{ stem := "rank_0", base_url := none, output_throughput := some 10 },
       { stem := "rank_1", base_url := none, output_throughput := some 30 }]) ∧
    (30 : ℚ) ∉ codeAggregates (parseBenchResults
      [{ stem := "rank_0", base_url := none, output_throughput := some 10 },
       { stem := "rank_1", base_url := none, output_throughput := some 30 }]) := by
  refine ⟨?_, ?_, ?_, ?_, ?_, ?_, ?_⟩ <;>
    norm_num [codeAggregates, parseBenchResults, benchTotal, specThroughputs,
      listMin, listMax, listMean, List.filterMap]

/-- C9 (amended): every result file is parsed into one entry, correlated
to its endpoint via the embedded base_url (scheme stripped, trailing
slashes removed, /v1 suffix dropped) with the filename stem as fallback;
the per-endpoint throughputs are reported individually and the only
cross-endpoint aggregate computed is the total, the sum of the numeric
throughputs (no min/max/mean aggregation exists in the code). -/
theorem bench_results_spec (files : List BenchFile) :
    (parseBenchResults files).length = files.length ∧
    (∀ f ∈ files,
      ({ endpoint :=
           match f.base_url with
           | some u => if u = "" then f.stem else urlToEndpoint u
           | none => f.stem,
         output_throughput_tok_s := f.output_throughput } : BenchResult) ∈
        parseBenchResults files) ∧
    benchTotal (parseBenchResults files) =
      (files.filterMap (fun f => f.output_throughput)).sum ∧
    codeAggregates (parseBenchResults files) = [benchTotal (parseBenchResults files)] ∧
    urlToEndpoint "http://a:8000/v1" = "a:8000" := by
  refine ⟨List.length_map files _, ?_, ?_, rfl, rfl⟩
  · intro f hf
    rw [parseBenchResults, List.mem_map]
    refine ⟨f, hf, ?_⟩
    match hb : f.base_url with
    | none => rfl
    | some u =>
      by_cases hu : u = ""
      · subst hu
        simp [Option.getD]
      · simp [Option.getD, hu]
  · rw [benchTotal, parseBenchResults, List.filterMap_map]
    rfl

/-- Witness for the amended C9 theorem at two concrete result files, one
correlated through its base_url and one through the stem fallback. -/
theorem bench_results_spec_witness :
    ({ endpoint := "a:8000", output_throughput_tok_s := some 10 } : BenchResult) ∈
      parseBenchResults
        [{ stem := "rank_0", base_url := some "http://a:8000/v1",
           output_throughput := some 10 },
         { stem := "rank_1", base_url := none, output_throughput := none }] ∧
    ({ endpoint := "rank_1", output_throughput_tok_s := none } : BenchResult) ∈
      parseBenchResults
        [{ stem := "rank_0", base_url := some "http://a:8000/v1",
           output_throughput := some 10 },
         { stem := "rank_1", base_url := none, output_throughput := none }] := by
  constructor
  · exact (bench_results_spec
      [{ stem := "rank_0", base_url := some "http://a:8000/v1",
         output_throughput := some 10 },
       { stem := "rank_1", base_url := none, output_throughput := none }]).2.1
      { stem := "rank_0", base_url := some "http://a:8000/v1",
        output_throughput := some 10 } (List.mem_cons_self _ _)
  · exact List.mem_cons_of_mem _ (List.mem_singleton.2 rfl)

end Aegis
